import Mathlib

/-!
Verification of the Personalized Learning Copilot's plan-assembly and
plan-progress logic against its specification.

The definitions below shallowly embed:
* the activity/plan status recomputation of
  `frontend/src/components/LearningPlan.js` (`handleStatusChange`),
* the endpoint fallback of `frontend/src/services/content.js`
  (`createLearningPlan`),
* the content-assignment loop excerpted in the repository document
  `Learning Plan Content Updates` (from `backend/api/learning_plan_routes.py`),
* the weekly-chunk storage shape described for
  `backend/services/azure_learning_plan_service.py`.
-/

/-- Activity / plan status as used by the frontend and the plan routes. -/
inductive ActivityStatus where
  | not_started
  | in_progress
  | completed
deriving DecidableEq, Repr

/-- An activity of a learning plan.  Timestamps are modelled as natural
numbers; `completed_at` and `content_id` are nullable as in the source. -/
structure Activity where
  id : Nat
  status : ActivityStatus
  completed_at : Option Nat
  content_id : Option Nat
  week : Nat
deriving DecidableEq, Repr

/-- A learning plan with the fields the verified code touches:
`status` and `progress_percentage` are the derived fields recomputed by
`handleStatusChange`. -/
structure LearningPlan where
  id : Nat
  subject : String
  status : ActivityStatus
  progress_percentage : Nat
  activities : List Activity
deriving DecidableEq, Repr

/-- The per-activity update performed by `handleStatusChange`
(LearningPlan.js): the matching activity gets the new status and
`completed_at` is set to the current time exactly when the new status is
`completed`, otherwise to null. -/
def updateActivity (activityId : Nat) (newStatus : ActivityStatus) (now : Nat)
    (a : Activity) : Activity :=
  if a.id = activityId then
    { a with
      status := newStatus
      completed_at := if newStatus = ActivityStatus.completed then some now else none }
  else a

/-- Number of completed activities (`updatedActivities.filter(...).length`
in LearningPlan.js). -/
def countCompleted (acts : List Activity) : Nat :=
  (acts.filter (fun a => a.status = ActivityStatus.completed)).length

/-- Progress percentage: `Math.round((completed / total) * 100)` when the
list is nonempty, else `0` (LearningPlan.js).  `Math.round` on the exact
rational value is floor of the value plus one half. -/
def progressPercentage (acts : List Activity) : Nat :=
  if 0 < acts.length then
    (countCompleted acts * 100 * 2 + acts.length) / (2 * acts.length)
  else 0

/-- Plan status recomputation of LearningPlan.js: `completed` when the
completed count equals the total, `in_progress` when it is positive,
else `not_started`. -/
def planStatusOf (acts : List Activity) : ActivityStatus :=
  if countCompleted acts = acts.length then ActivityStatus.completed
  else if 0 < countCompleted acts then ActivityStatus.in_progress
  else ActivityStatus.not_started

/-- The whole local-state update of `handleStatusChange` (LearningPlan.js):
map the per-activity update over the activities, then recompute
`progress_percentage` and `status` from the updated list. -/
def handleStatusChange (plan : LearningPlan) (activityId : Nat)
    (newStatus : ActivityStatus) (now : Nat) : LearningPlan :=
  let updated := plan.activities.map (updateActivity activityId newStatus now)
  { plan with
    activities := updated
    progress_percentage := progressPercentage updated
    status := planStatusOf updated }

/-- The request body built by `updateActivityStatus` (content.js) together
with the argument computed at its call site in LearningPlan.js:
`completed_at` is the current time exactly when the status is `completed`. -/
def statusUpdatePayload (newStatus : ActivityStatus) (now : Nat) :
    ActivityStatus × Option Nat :=
  (newStatus, if newStatus = ActivityStatus.completed then some now else none)

/-- An endpoint the plan-creation service may call (content.js). -/
inductive Endpoint where
  | aiPlan
  | standardPlan
deriving DecidableEq, Repr

/-- An error carried by a failed API call. -/
structure ApiError where
  msg : String
deriving DecidableEq, Repr

/-- The `createLearningPlan` control flow of content.js: with no auth
token it throws before contacting any endpoint; otherwise the AI plan
endpoint is tried first and, on failure, the standard endpoint; the error
of the standard endpoint is rethrown when both fail.  The outcomes of the
two `api.post` calls are inputs, and the second component records which
endpoints were attempted, in order. -/
def createLearningPlan (token : Option String)
    (aiResult stdResult : Except ApiError LearningPlan) :
    Except ApiError LearningPlan × List Endpoint :=
  match token with
  | none => (Except.error { msg := "Please log in to create learning plans" }, [])
  | some _ =>
    match aiResult with
    | Except.ok p => (Except.ok p, [Endpoint.aiPlan])
    | Except.error _ =>
      match stdResult with
      | Except.ok p => (Except.ok p, [Endpoint.aiPlan, Endpoint.standardPlan])
      | Except.error e =>
          (Except.error e, [Endpoint.aiPlan, Endpoint.standardPlan])

/-- One step of the content-assignment logic of the plan routes (excerpt
in `Learning Plan Content Updates`): an activity that already has a
content reference keeps it; otherwise, when candidates exist, the first
candidate whose id is not among the used ids is assigned, and when all
candidates are used the first candidate (`relevant_content[0]`) is
reused; with no candidates the activity stays unbound. -/
def assignOne (cands : List Nat) (used : List Nat) (cur : Option Nat) :
    Option Nat :=
  match cur with
  | some c => some c
  | none =>
    match cands.filter (fun c => decide (¬ c ∈ used)) with
    | u :: _ => some u
    | [] => cands.head?

/-- The assignment loop over the plan's activities: walks the activity
list in order; at each step the used ids are the content ids of all
activities in their current state (already-processed ones with their
assignments applied). -/
def assignAll (cands : List Nat) :
    List (Option Nat) → List (Option Nat) → List (Option Nat)
  | done, [] => done
  | done, cur :: rest =>
    assignAll cands
      (done ++ [assignOne cands ((done ++ cur :: rest).filterMap id) cur])
      rest

/-- Content assignment over a whole activity list, starting from the
plan's current bindings. -/
def assignContents (cands : List Nat) (acts : List (Option Nat)) :
    List (Option Nat) :=
  assignAll cands [] acts

/-- Modelled from the spec: the persisted plan shape of
`azure_learning_plan_service` (the service file itself is not among the
sources; the repository document on profile indexing describes it):
`W` discrete weekly slots `activities_week_1 .. activities_week_W` plus
one overflow slot (the `activities_json` field) for weeks beyond `W`. -/
structure PlanStorageShape where
  weekly : List (List Activity)
  overflow : List Activity
deriving DecidableEq, Repr

/-- Modelled from the spec: weekly-chunk serialization of a plan's
activities — activities of week `w ≤ W` go into weekly slot `w`
(slot `w` is entry `w - 1` of `weekly`), and activities of weeks beyond
`W` are concatenated, in order, into the overflow slot. -/
def serializePlan (W : Nat) (acts : List Activity) : PlanStorageShape :=
  { weekly := (List.range W).map
      (fun i => acts.filter (fun b => decide (b.week = i + 1)))
    overflow := acts.filter (fun b => decide (W < b.week)) }

/-- Modelled from the spec: callers reconstruct the full ordered activity
list by concatenating all weekly slots in order, then appending the
decoded overflow entries. -/
def decodePlan (s : PlanStorageShape) : List Activity :=
  s.weekly.flatten ++ s.overflow

/-- Modelled from the spec: serialization in the presence of per-week
slot failures — a week whose slot serialization fails places its
activities into the overflow slot instead of dropping them (`failing w`
says whether writing weekly slot `w` fails). -/
def serializePlanF (failing : Nat → Bool) (W : Nat) (acts : List Activity) :
    PlanStorageShape :=
  { weekly := (List.range W).map
      (fun i =>
        if failing (i + 1) then []
        else acts.filter (fun b => decide (b.week = i + 1)))
    overflow := acts.filter
      (fun b => decide (W < b.week) || (decide (b.week ≤ W) && failing b.week)) }

/-- Modelled from the spec: the two plan-creation routes of
`learning_plan_routes.py` (the route file itself is not among the
sources; the repository document on learning-plan content updates records
the retrieval sizes of both routes). -/
inductive PlanRoute where
  | standard
  | profileBased
deriving DecidableEq, Repr

/-- Modelled from the spec: the number of candidate content items each
plan-creation route requests from retrieval — `k = 15` on the standard
route and `k = 10` on the profile-based route, in both cases a fixed
constant. -/
def retrievalK : PlanRoute → Nat
  | PlanRoute.standard => 15
  | PlanRoute.profileBased => 10

lemma countCompleted_eq_length_iff (l : List Activity) :
    countCompleted l = l.length ↔
      ∀ a ∈ l, a.status = ActivityStatus.completed := by
  unfold countCompleted
  constructor
  · intro h
    have heq := List.Sublist.eq_of_length (List.filter_sublist l) h
    intro a hal
    rw [← heq] at hal
    simpa using (List.mem_filter.mp hal).2
  · intro h
    rw [List.filter_eq_self.mpr (fun a ha => by simpa using h a ha)]

lemma countCompleted_pos_iff (l : List Activity) :
    0 < countCompleted l ↔
      ∃ a ∈ l, a.status = ActivityStatus.completed := by
  unfold countCompleted
  rw [← List.countP_eq_length_filter, List.countP_pos_iff]
  simp

lemma planStatusOf_completed_iff (l : List Activity) :
    planStatusOf l = ActivityStatus.completed ↔
      ∀ a ∈ l, a.status = ActivityStatus.completed := by
  unfold planStatusOf
  split_ifs with hc hp
  · simpa using (countCompleted_eq_length_iff l).mp hc
  · simp only [reduceCtorEq, false_iff]
    exact fun hall => hc ((countCompleted_eq_length_iff l).mpr hall)
  · simp only [reduceCtorEq, false_iff]
    exact fun hall => hc ((countCompleted_eq_length_iff l).mpr hall)

lemma planStatusOf_in_progress_iff (l : List Activity) :
    planStatusOf l = ActivityStatus.in_progress ↔
      ((∃ a ∈ l, a.status = ActivityStatus.completed)
        ∧ ¬ ∀ a ∈ l, a.status = ActivityStatus.completed) := by
  unfold planStatusOf
  split_ifs with hc hp
  · simp only [reduceCtorEq, false_iff]
    rintro ⟨_, hnall⟩
    exact hnall ((countCompleted_eq_length_iff l).mp hc)
  · simp only [true_iff]
    exact ⟨(countCompleted_pos_iff l).mp hp,
      fun hall => hc ((countCompleted_eq_length_iff l).mpr hall)⟩
  · simp only [reduceCtorEq, false_iff]
    rintro ⟨hex, _⟩
    exact hp ((countCompleted_pos_iff l).mpr hex)

lemma countCompleted_map_status (l1 l2 : List Activity)
    (h : l1.map (fun a => a.status) = l2.map (fun a => a.status)) :
    countCompleted l1 = countCompleted l2 := by
  have hc : ∀ l : List Activity,
      countCompleted l =
        List.countP (fun s => decide (s = ActivityStatus.completed))
          (l.map (fun a => a.status)) := by
    intro l
    simp only [countCompleted, ← List.countP_eq_length_filter,
      List.countP_map]
    rfl
  rw [hc, hc, h]

lemma length_map_status (l1 l2 : List Activity)
    (h : l1.map (fun a => a.status) = l2.map (fun a => a.status)) :
    l1.length = l2.length := by
  have := congrArg List.length h
  simpa using this

/-- C2: after a status transition the plan status and progress are
recomputed as pure functions of the activity statuses — `completed`
exactly when all activities are completed, `in_progress` exactly when
some but not all are — and marking the last not-completed activity as
completed yields status `completed` and progress 100. -/
theorem plan_status_pure_recompute (plan : LearningPlan)
    (activityId now : Nat)
    (h1 : plan.activities ≠ [])
    (h2 : ∀ a ∈ plan.activities,
      a.id = activityId ∨ a.status = ActivityStatus.completed) :
    ((handleStatusChange plan activityId ActivityStatus.completed now).status
        = ActivityStatus.completed
      ∧ (handleStatusChange plan activityId
          ActivityStatus.completed now).progress_percentage = 100)
    ∧ (∀ l1 l2 : List Activity,
        l1.map (fun a => a.status) = l2.map (fun a => a.status) →
        planStatusOf l1 = planStatusOf l2
          ∧ progressPercentage l1 = progressPercentage l2)
    ∧ (∀ l : List Activity,
        (planStatusOf l = ActivityStatus.completed ↔
          ∀ a ∈ l, a.status = ActivityStatus.completed)
        ∧ (planStatusOf l = ActivityStatus.in_progress ↔
          ((∃ a ∈ l, a.status = ActivityStatus.completed)
            ∧ ¬ ∀ a ∈ l, a.status = ActivityStatus.completed))) := by
  refine ⟨?_, ?_,
    fun l => ⟨planStatusOf_completed_iff l, planStatusOf_in_progress_iff l⟩⟩
  · set u := plan.activities.map
      (updateActivity activityId ActivityStatus.completed now) with hu
    have hall : ∀ x ∈ u, x.status = ActivityStatus.completed := by
      intro x hx
      rcases List.mem_map.mp hx with ⟨a, ha, rfl⟩
      rcases h2 a ha with hid | hst
      · simp [updateActivity, hid]
      · by_cases hid : a.id = activityId
        · simp [updateActivity, hid]
        · simp [updateActivity, hid, hst]
    have hcount : countCompleted u = u.length := by
      unfold countCompleted
      rw [List.filter_eq_self.mpr]
      intro a ha
      simpa using hall a ha
    have hlen : 0 < u.length := by
      rw [hu, List.length_map]
      exact List.length_pos.mpr h1
    constructor
    · simp only [handleStatusChange, planStatusOf]
      rw [← hu]
      simp [hcount]
    · simp only [handleStatusChange, progressPercentage]
      rw [← hu]
      simp only [hlen, if_pos, hcount]
      have h200 : u.length * 100 * 2 + u.length
          = u.length + 2 * u.length * 100 := by ring
      rw [h200, Nat.add_mul_div_left _ _ (by omega : 0 < 2 * u.length)]
      rw [Nat.div_eq_of_lt (by omega)]
  · intro l1 l2 h
    have hcc := countCompleted_map_status l1 l2 h
    have hl := length_map_status l1 l2 h
    constructor
    · simp [planStatusOf, hcc, hl]
    · simp [progressPercentage, hcc, hl]

/-- Witness for C2 at a concrete two-activity plan whose first activity is
already completed. -/
theorem plan_status_pure_recompute_witness :
    (handleStatusChange
        { id := 1, subject := "Mathematics", status := ActivityStatus.in_progress,
          progress_percentage := 50,
          activities :=
            [{ id := 10, status := ActivityStatus.completed,
               completed_at := some 3, content_id := some 7, week := 1 },
             { id := 11, status := ActivityStatus.not_started,
               completed_at := none, content_id := some 8, week := 2 }] }
        11 ActivityStatus.completed 5).status = ActivityStatus.completed
    ∧ (handleStatusChange
        { id := 1, subject := "Mathematics", status := ActivityStatus.in_progress,
          progress_percentage := 50,
          activities :=
            [{ id := 10, status := ActivityStatus.completed,
               completed_at := some 3, content_id := some 7, week := 1 },
             { id := 11, status := ActivityStatus.not_started,
               completed_at := none, content_id := some 8, week := 2 }] }
        11 ActivityStatus.completed 5).progress_percentage = 100 :=
  (plan_status_pure_recompute
    { id := 1, subject := "Mathematics", status := ActivityStatus.in_progress,
      progress_percentage := 50,
      activities :=
        [{ id := 10, status := ActivityStatus.completed,
           completed_at := some 3, content_id := some 7, week := 1 },
         { id := 11, status := ActivityStatus.not_started,
           completed_at := none, content_id := some 8, week := 2 }] }
    11 5 (by simp) (by decide)).1

/-- C8: after a transition of the matching activity, `completed_at` is
non-null exactly when the resulting status is `completed`; transitioning
to `completed` records the timestamp and any other transition clears it;
the request payload satisfies the same relation. -/
theorem completed_iff_timestamp (activityId : Nat) (s : ActivityStatus)
    (now : Nat) (a : Activity) (ha : a.id = activityId) :
    ((updateActivity activityId s now a).completed_at ≠ none
        ↔ (updateActivity activityId s now a).status = ActivityStatus.completed)
    ∧ (s = ActivityStatus.completed →
        (updateActivity activityId s now a).completed_at = some now)
    ∧ (s ≠ ActivityStatus.completed →
        (updateActivity activityId s now a).completed_at = none)
    ∧ ((statusUpdatePayload s now).2 ≠ none ↔ s = ActivityStatus.completed) := by
  refine ⟨?_, ?_, ?_, ?_⟩
  · by_cases hs : s = ActivityStatus.completed <;>
      simp [updateActivity, statusUpdatePayload, ha, hs]
  · intro hs; simp [updateActivity, ha, hs]
  · intro hs; simp [updateActivity, ha, hs]
  · by_cases hs : s = ActivityStatus.completed <;>
      simp [statusUpdatePayload, hs]

/-- Witness for C8: transitioning a concrete activity to `completed`
records the timestamp, and to `in_progress` clears it. -/
theorem completed_iff_timestamp_witness :
    (updateActivity 4 ActivityStatus.completed 9
      { id := 4, status := ActivityStatus.not_started, completed_at := none,
        content_id := some 2, week := 1 }).completed_at = some 9 :=
  (completed_iff_timestamp 4 ActivityStatus.completed 9
    { id := 4, status := ActivityStatus.not_started, completed_at := none,
      content_id := some 2, week := 1 } rfl).2.1 rfl

/-- C10: on a plan with no activities the recomputation yields progress 0
and plan status `completed` (the completed count 0 equals the total 0),
not `not_started`. -/
theorem empty_plan_recompute (plan : LearningPlan) (activityId now : Nat)
    (s : ActivityStatus) (h : plan.activities = []) :
    (handleStatusChange plan activityId s now).progress_percentage = 0
    ∧ (handleStatusChange plan activityId s now).status
        = ActivityStatus.completed
    ∧ (handleStatusChange plan activityId s now).status
        ≠ ActivityStatus.not_started := by
  refine ⟨?_, ?_, ?_⟩ <;>
    simp [handleStatusChange, h, progressPercentage, planStatusOf,
      countCompleted]

/-- C4: for an authenticated call, the AI endpoint is attempted first;
an error is surfaced only when both endpoints were attempted and both
failed, and when only the AI attempt fails the caller observes the
standard plan. -/
theorem create_plan_fallback (token : Option String) (t : String)
    (ht : token = some t) (aiResult stdResult : Except ApiError LearningPlan) :
    ((createLearningPlan token aiResult stdResult).2.head? = some Endpoint.aiPlan)
    ∧ (∀ e, (createLearningPlan token aiResult stdResult).1 = Except.error e →
        (∃ e1, aiResult = Except.error e1) ∧ stdResult = Except.error e
          ∧ (createLearningPlan token aiResult stdResult).2
              = [Endpoint.aiPlan, Endpoint.standardPlan])
    ∧ (∀ e1 p, aiResult = Except.error e1 → stdResult = Except.ok p →
        (createLearningPlan token aiResult stdResult).1 = Except.ok p) := by
  subst ht
  refine ⟨?_, ?_, ?_⟩
  · cases aiResult with
    | ok p => simp [createLearningPlan]
    | error e1 => cases stdResult <;> simp [createLearningPlan]
  · intro e he
    cases aiResult with
    | ok p => simp [createLearningPlan] at he
    | error e1 =>
      cases stdResult with
      | ok p => simp [createLearningPlan] at he
      | error e2 =>
        simp [createLearningPlan] at he
        subst he
        exact ⟨⟨e1, rfl⟩, rfl, by simp [createLearningPlan]⟩
  · intro e1 p h1 h2
    subst h1; subst h2
    simp [createLearningPlan]

/-- Witness for C4: with a token present, a failed AI call and a
successful standard call yield the standard plan. -/
theorem create_plan_fallback_witness :
    (createLearningPlan (some "tok")
        (Except.error { msg := "ai down" })
        (Except.ok { id := 3, subject := "Mathematics",
                     status := ActivityStatus.not_started,
                     progress_percentage := 0, activities := [] })).1
      = Except.ok { id := 3, subject := "Mathematics",
                    status := ActivityStatus.not_started,
                    progress_percentage := 0, activities := [] } :=
  (create_plan_fallback (some "tok") "tok" rfl
      (Except.error { msg := "ai down" })
      (Except.ok { id := 3, subject := "Mathematics",
                   status := ActivityStatus.not_started,
                   progress_percentage := 0, activities := [] })).2.2
    { msg := "ai down" }
    { id := 3, subject := "Mathematics", status := ActivityStatus.not_started,
      progress_percentage := 0, activities := [] } rfl rfl

/-- Witness for C10 at a concrete empty plan. -/
theorem empty_plan_recompute_witness :
    (handleStatusChange
      { id := 2, subject := "Science", status := ActivityStatus.not_started,
        progress_percentage := 0, activities := [] }
      1 ActivityStatus.completed 3).progress_percentage = 0
    ∧ (handleStatusChange
      { id := 2, subject := "Science", status := ActivityStatus.not_started,
        progress_percentage := 0, activities := [] }
      1 ActivityStatus.completed 3).status = ActivityStatus.completed :=
  ⟨(empty_plan_recompute
      { id := 2, subject := "Science", status := ActivityStatus.not_started,
        progress_percentage := 0, activities := [] }
      1 3 ActivityStatus.completed rfl).1,
   (empty_plan_recompute
      { id := 2, subject := "Science", status := ActivityStatus.not_started,
        progress_percentage := 0, activities := [] }
      1 3 ActivityStatus.completed rfl).2.1⟩

lemma assignOne_isSome (cands used : List Nat) (cur : Option Nat)
    (hc : cands ≠ []) : (assignOne cands used cur).isSome = true := by
  cases cur with
  | some c => simp [assignOne]
  | none =>
    simp only [assignOne]
    cases hf : cands.filter (fun c => decide (¬ c ∈ used)) with
    | cons u us => rfl
    | nil =>
      cases cands with
      | nil => exact absurd rfl hc
      | cons c cs => rfl

lemma assignAll_isSome (cands : List Nat) (hc : cands ≠ []) :
    ∀ todo done, (∀ x ∈ done, x.isSome = true) →
      ∀ x ∈ assignAll cands done todo, x.isSome = true := by
  intro todo
  induction todo with
  | nil =>
    intro done hdone x hx
    exact hdone x (by simpa [assignAll] using hx)
  | cons cur rest ih =>
    intro done hdone x hx
    simp only [assignAll] at hx
    refine ih _ ?_ x hx
    intro y hy
    rcases List.mem_append.mp hy with h1 | h2
    · exact hdone y h1
    · have : y = assignOne cands ((done ++ cur :: rest).filterMap id) cur := by
        simpa using h2
      rw [this]
      exact assignOne_isSome _ _ _ hc

/-- C7: whenever at least one candidate content item is available, every
activity produced by the assignment loop carries a content binding; an
activity can come out unbound only when the candidate pool was empty. -/
theorem generated_plan_content_bound (cands : List Nat)
    (acts : List (Option Nat)) :
    (cands ≠ [] → ∀ x ∈ assignContents cands acts, x.isSome = true)
    ∧ (∀ x ∈ assignContents cands acts, x = none → cands = []) := by
  constructor
  · intro hc
    exact assignAll_isSome cands hc acts [] (by simp)
  · intro x hx hnone
    by_contra hc
    have := assignAll_isSome cands hc acts [] (by simp) x hx
    simp [hnone] at this
/-- Witness for C7: one candidate, one unbound activity; the result is
bound. -/
theorem generated_plan_content_bound_witness :
    (∀ x ∈ assignContents [5] [none, none], x.isSome = true)
    ∧ (([5] : List Nat) ≠ []) :=
  ⟨(generated_plan_content_bound [5] [none, none]).1 (by decide), by decide⟩

/-- C3 counterexample: with candidates `[1, 2, 3]` and five unbound
activities, the 4th and 5th activities are both assigned candidate `1`
(the first candidate is reused every time the pool is exhausted), so the
claimed no-repeat cycling fails even though at least two candidates
exist. -/
theorem content_cycling_cex :
    ¬ (2 ≤ ([1, 2, 3] : List Nat).length →
        (assignContents [1, 2, 3] (List.replicate 5 (none : Option Nat))).get? 3
          ≠ (assignContents [1, 2, 3]
              (List.replicate 5 (none : Option Nat))).get? 4) := by
  decide

/-- C3 amended: each unbound activity receives the first unused
candidate; once every candidate is used, the first candidate of the pool
(not the least-recently-assigned one) is reused for every remaining
activity; in the 3-candidate / 5-activity scenario every candidate is
used at least once and the 4th and 5th activities both reuse the first
candidate. -/
theorem content_reuse_first (cands used : List Nat) (hc : cands ≠ [])
    (hall : ∀ c ∈ cands, c ∈ used) :
    assignOne cands used none = cands.head?
    ∧ assignContents [1, 2, 3] (List.replicate 5 (none : Option Nat))
        = [some 1, some 2, some 3, some 1, some 1]
    ∧ (∀ c ∈ ([1, 2, 3] : List Nat),
        some c ∈ assignContents [1, 2, 3]
          (List.replicate 5 (none : Option Nat))) := by
  refine ⟨?_, by decide, by decide⟩
  have hfil : cands.filter (fun c => decide (¬ c ∈ used)) = [] := by
    rw [List.filter_eq_nil_iff]
    intro a ha
    simp [hall a ha]
  simp only [assignOne]
  rw [hfil]

/-- Witness for the amended C3: a concrete exhausted pool reuses the
first candidate. -/
theorem content_reuse_first_witness :
    assignOne [7, 8] [8, 7, 9] none = List.head? [7, 8]
    ∧ (([7, 8] : List Nat) ≠ []) :=
  ⟨(content_reuse_first [7, 8] [8, 7, 9] (by decide) (by decide)).1, by decide⟩

lemma flatten_map_eq_nil (W : Nat) (f : Nat → List Activity)
    (h : ∀ i, i < W → f i = []) : ((List.range W).map f).flatten = [] := by
  rw [List.flatten_eq_nil_iff]
  intro l hl
  rcases List.mem_map.mp hl with ⟨i, hi, rfl⟩
  exact h i (List.mem_range.mp hi)

lemma flatten_map_ite (W : Nat) :
    ∀ (w : Nat) (a : Activity) (f : Nat → List Activity),
      1 ≤ w → w ≤ W → (∀ i, i + 1 < w → f i = []) →
      ((List.range W).map
          (fun i => if i + 1 = w then a :: f i else f i)).flatten
        = a :: ((List.range W).map f).flatten := by
  induction W with
  | zero => intro w a f h1 h2 _; omega
  | succ n ih =>
    intro w a f h1 h2 h0
    rw [List.range_succ_eq_map, List.map_cons, List.map_cons,
      List.flatten_cons, List.flatten_cons, List.map_map, List.map_map]
    simp only [Function.comp_def, Nat.succ_eq_add_one, Nat.zero_add]
    by_cases hw : w = 1
    · subst hw
      rw [if_pos rfl]
      have hcong : (List.range n).map
            (fun i => if i + 1 + 1 = 1 then a :: f (i + 1) else f (i + 1))
          = (List.range n).map (fun i => f (i + 1)) :=
        List.map_congr_left (fun i _ => by rw [if_neg (by omega)])
      rw [hcong, List.cons_append]
    · have hf0 : f 0 = [] := h0 0 (by omega)
      rw [if_neg (by omega)]
      have hcong : (List.range n).map
            (fun i => if i + 1 + 1 = w then a :: f (i + 1) else f (i + 1))
          = (List.range n).map
            (fun i => if i + 1 = w - 1 then a :: f (i + 1) else f (i + 1)) :=
        List.map_congr_left (fun i _ => by
          by_cases h : i + 1 + 1 = w
          · rw [if_pos h, if_pos (by omega)]
          · rw [if_neg h, if_neg (by omega)])
      rw [hcong, ih (w - 1) a (fun i => f (i + 1)) (by omega) (by omega)
        (fun i hi => h0 (i + 1) (by omega)), hf0]
      simp

lemma weekChunks_flatten_cons (W : Nat) (a : Activity) (as : List Activity)
    (h1 : 1 ≤ a.week) (h2 : a.week ≤ W)
    (hmin : ∀ b ∈ as, a.week ≤ b.week) :
    ((List.range W).map
        (fun i => (a :: as).filter (fun b => decide (b.week = i + 1)))).flatten
      = a :: ((List.range W).map
          (fun i => as.filter (fun b => decide (b.week = i + 1)))).flatten := by
  have hstep : ∀ i : Nat,
      (a :: as).filter (fun b => decide (b.week = i + 1))
        = if i + 1 = a.week
            then a :: as.filter (fun b => decide (b.week = i + 1))
            else as.filter (fun b => decide (b.week = i + 1)) := by
    intro i
    by_cases h : a.week = i + 1
    · rw [if_pos h.symm, List.filter_cons_of_pos (by simpa using h)]
    · rw [if_neg (fun hc => h hc.symm),
        List.filter_cons_of_neg (by simpa using h)]
  rw [List.map_congr_left (fun i _ => hstep i)]
  exact flatten_map_ite W a.week a _ h1 h2
    (fun i hi => List.filter_eq_nil_iff.mpr (fun b hb => by
      have := hmin b hb
      simp only [decide_eq_true_eq]
      omega))

lemma decode_serialize (W : Nat) :
    ∀ acts : List Activity, acts.Pairwise (fun x y => x.week ≤ y.week) →
      (∀ a ∈ acts, 1 ≤ a.week) →
      decodePlan (serializePlan W acts) = acts := by
  intro acts
  induction acts with
  | nil =>
    intro _ _
    simp [decodePlan, serializePlan, List.flatten_eq_nil_iff]
  | cons a as ih =>
    intro hsort hpos
    rw [List.pairwise_cons] at hsort
    obtain ⟨hmin, hsort2⟩ := hsort
    have ha1 : 1 ≤ a.week := hpos a (List.mem_cons_self a as)
    by_cases hw : a.week ≤ W
    · have hover : (a :: as).filter (fun b => decide (W < b.week))
          = as.filter (fun b => decide (W < b.week)) :=
        List.filter_cons_of_neg (by simp only [decide_eq_true_eq]; omega)
      simp only [decodePlan, serializePlan] at ih ⊢
      rw [weekChunks_flatten_cons W a as ha1 hw hmin, hover, List.cons_append,
        ih hsort2 (fun b hb => hpos b (List.mem_cons_of_mem a hb))]
    · have hallW : ∀ b ∈ a :: as, W < b.week := by
        intro b hb
        rcases List.mem_cons.mp hb with rfl | hb2
        · omega
        · have := hmin b hb2; omega
      simp only [decodePlan, serializePlan]
      rw [flatten_map_eq_nil W _ (fun i hi => List.filter_eq_nil_iff.mpr
          (fun b hb => by
            have := hallW b hb
            simp only [decide_eq_true_eq]
            omega)),
        List.nil_append,
        List.filter_eq_self.mpr (fun b hb => by simpa using hallW b hb)]

lemma serialize_weekly_disjoint (W : Nat) (acts : List Activity) :
    ((serializePlan W acts).weekly).Pairwise
      (fun l1 l2 => ∀ b ∈ l1, b ∉ l2) := by
  simp only [serializePlan]
  rw [List.pairwise_map]
  refine List.Pairwise.imp ?_ (List.pairwise_lt_range W)
  intro i j hij b hbi hbj
  have h1 := (List.mem_filter.mp hbi).2
  have h2 := (List.mem_filter.mp hbj).2
  simp only [decide_eq_true_eq] at h1 h2
  omega

lemma serialize_overflow_disjoint (W : Nat) (acts : List Activity) :
    ∀ l ∈ (serializePlan W acts).weekly, ∀ b ∈ l,
      b ∉ (serializePlan W acts).overflow := by
  intro l hl b hb hbo
  simp only [serializePlan] at hl hb hbo
  rcases List.mem_map.mp hl with ⟨i, hi, rfl⟩
  have h1 := (List.mem_filter.mp hb).2
  have h2 := (List.mem_filter.mp hbo).2
  simp only [decide_eq_true_eq] at h1 h2
  have := List.mem_range.mp hi
  omega

/-- C1: for a plan whose activities are listed in nondecreasing week
order with weeks at least 1, decoding the weekly slots in order and
appending the decoded overflow entries reproduces exactly the original
ordered activity sequence, and no activity appears in more than one
slot (distinct weekly slots are disjoint, and every weekly slot is
disjoint from the overflow slot). -/
theorem plan_storage_roundtrip (W : Nat) (acts : List Activity)
    (hsort : acts.Pairwise (fun x y => x.week ≤ y.week))
    (hpos : ∀ a ∈ acts, 1 ≤ a.week) :
    decodePlan (serializePlan W acts) = acts
    ∧ ((serializePlan W acts).weekly).Pairwise
        (fun l1 l2 => ∀ b ∈ l1, b ∉ l2)
    ∧ (∀ l ∈ (serializePlan W acts).weekly, ∀ b ∈ l,
        b ∉ (serializePlan W acts).overflow) :=
  ⟨decode_serialize W acts hsort hpos,
   serialize_weekly_disjoint W acts,
   serialize_overflow_disjoint W acts⟩

/-- Witness for C1 on a concrete three-activity plan (weeks 1, 2, 3)
with capacity 2, so the week-3 activity passes through the overflow
slot. -/
theorem plan_storage_roundtrip_witness :
    decodePlan (serializePlan 2
      [{ id := 1, status := ActivityStatus.not_started, completed_at := none,
         content_id := some 1, week := 1 },
       { id := 2, status := ActivityStatus.not_started, completed_at := none,
         content_id := some 2, week := 2 },
       { id := 3, status := ActivityStatus.not_started, completed_at := none,
         content_id := some 3, week := 3 }])
      = [{ id := 1, status := ActivityStatus.not_started, completed_at := none,
           content_id := some 1, week := 1 },
         { id := 2, status := ActivityStatus.not_started, completed_at := none,
           content_id := some 2, week := 2 },
         { id := 3, status := ActivityStatus.not_started, completed_at := none,
           content_id := some 3, week := 3 }] :=
  (plan_storage_roundtrip 2
    [{ id := 1, status := ActivityStatus.not_started, completed_at := none,
       content_id := some 1, week := 1 },
     { id := 2, status := ActivityStatus.not_started, completed_at := none,
       content_id := some 2, week := 2 },
     { id := 3, status := ActivityStatus.not_started, completed_at := none,
       content_id := some 3, week := 3 }]
    (by decide) (by decide)).1

/-- C5: an activity of week `w ≤ W` lands in weekly slot `w` (entry
`w - 1` of the weekly slots, which is exactly the bucket of week `w`),
an activity of week `w > W` lands in the overflow slot, and the overflow
slot is an order-preserving subsequence of the original activity list. -/
theorem activity_week_placement (W : Nat) (acts : List Activity)
    (a : Activity) (ha : a ∈ acts) :
    (1 ≤ a.week → a.week ≤ W →
      (serializePlan W acts).weekly[a.week - 1]?
          = some (acts.filter (fun b => decide (b.week = a.week)))
        ∧ a ∈ acts.filter (fun b => decide (b.week = a.week)))
    ∧ (W < a.week → a ∈ (serializePlan W acts).overflow)
    ∧ List.Sublist (serializePlan W acts).overflow acts := by
  refine ⟨?_, ?_, ?_⟩
  · intro h1 h2
    constructor
    · simp only [serializePlan]
      rw [List.getElem?_map, List.getElem?_range (by omega : a.week - 1 < W)]
      have he : a.week - 1 + 1 = a.week := by omega
      simp [he]
    · exact List.mem_filter.mpr ⟨ha, by simp⟩
  · intro hW
    simp only [serializePlan]
    exact List.mem_filter.mpr ⟨ha, by simpa using hW⟩
  · simp only [serializePlan]
    exact List.filter_sublist acts

/-- Witness for C5: with capacity 8 and activities of weeks 1, 9 and 10,
the week-9 activity is in the overflow slot. -/
theorem activity_week_placement_witness :
    { id := 9, status := ActivityStatus.not_started, completed_at := none,
      content_id := some 9, week := 9 }
      ∈ (serializePlan 8
        [{ id := 1, status := ActivityStatus.not_started, completed_at := none,
           content_id := some 1, week := 1 },
         { id := 9, status := ActivityStatus.not_started, completed_at := none,
           content_id := some 9, week := 9 },
         { id := 10, status := ActivityStatus.not_started, completed_at := none,
           content_id := some 10, week := 10 }]).overflow :=
  (activity_week_placement 8
    [{ id := 1, status := ActivityStatus.not_started, completed_at := none,
       content_id := some 1, week := 1 },
     { id := 9, status := ActivityStatus.not_started, completed_at := none,
       content_id := some 9, week := 9 },
     { id := 10, status := ActivityStatus.not_started, completed_at := none,
       content_id := some 10, week := 10 }]
    { id := 9, status := ActivityStatus.not_started, completed_at := none,
      content_id := some 9, week := 9 }
    (by decide)).2.1 (by decide)

/-- C6: under per-week serialization failures, every activity (of week
at least 1) still appears in the decoded stored plan; in particular the
activities of a failing week `w ≤ W` are placed in the overflow slot
rather than dropped. -/
theorem failed_week_fallback (failing : Nat → Bool) (W : Nat)
    (acts : List Activity) (a : Activity) (ha : a ∈ acts)
    (h1 : 1 ≤ a.week) :
    a ∈ decodePlan (serializePlanF failing W acts)
    ∧ (a.week ≤ W → failing a.week = true →
        a ∈ (serializePlanF failing W acts).overflow) := by
  have hover : (decide (W < a.week)
        || (decide (a.week ≤ W) && failing a.week)) = true →
      a ∈ (serializePlanF failing W acts).overflow := by
    intro hcond
    simp only [serializePlanF]
    exact List.mem_filter.mpr ⟨ha, hcond⟩
  constructor
  · simp only [decodePlan]
    by_cases hW : a.week ≤ W
    · by_cases hf : failing a.week = true
      · exact List.mem_append.mpr (Or.inr (hover (by simp [hW, hf])))
      · refine List.mem_append.mpr (Or.inl ?_)
        simp only [serializePlanF]
        rw [List.mem_flatten]
        refine ⟨acts.filter (fun b => decide (b.week = a.week)), ?_, ?_⟩
        · rw [List.mem_map]
          refine ⟨a.week - 1, List.mem_range.mpr (by omega), ?_⟩
          have he : a.week - 1 + 1 = a.week := by omega
          rw [he, if_neg hf]
        · exact List.mem_filter.mpr ⟨ha, by simp⟩
    · refine List.mem_append.mpr (Or.inr (hover ?_))
      simp only [Bool.or_eq_true, decide_eq_true_eq]
      left; omega
  · intro hW hf
    exact hover (by simp [hW, hf])

/-- Witness for C6: week 2 fails with capacity 8; the week-2 activity is
still decoded, via the overflow slot. -/
theorem failed_week_fallback_witness :
    { id := 2, status := ActivityStatus.not_started, completed_at := none,
      content_id := some 2, week := 2 }
      ∈ (serializePlanF (fun w => w == 2) 8
        [{ id := 2, status := ActivityStatus.not_started, completed_at := none,
           content_id := some 2, week := 2 }]).overflow :=
  (failed_week_fallback (fun w => w == 2) 8
    [{ id := 2, status := ActivityStatus.not_started, completed_at := none,
       content_id := some 2, week := 2 }]
    { id := 2, status := ActivityStatus.not_started, completed_at := none,
      content_id := some 2, week := 2 }
    (by decide) (by decide)).2 (by decide) (by decide)

/-- C9 counterexample: the profile-based plan-creation route requests a
candidate pool of 10 items, below `max 15 activity_count` already for a
single activity, so the pool is not sized at least
`max 15 activity_count` on every plan-assembly call. -/
theorem retrieval_pool_cex :
    ¬ (max 15 1 ≤ retrievalK PlanRoute.profileBased) := by decide

/-- C9 amended: each plan-creation route requests a fixed-size candidate
pool — 15 on the standard route and 10 on the profile-based route —
independent of the activity count; the requested size reaches
`max 15 activity_count` only when the activity count is within the
constant, as on the standard route with at most 15 activities. -/
theorem retrieval_pool_size (n : Nat) (h : n ≤ 15) :
    retrievalK PlanRoute.standard = 15
    ∧ retrievalK PlanRoute.profileBased = 10
    ∧ max 15 n ≤ retrievalK PlanRoute.standard := by
  refine ⟨rfl, rfl, ?_⟩
  have : retrievalK PlanRoute.standard = 15 := rfl
  omega

/-- Witness for the amended C9 at activity count 7. -/
theorem retrieval_pool_size_witness :
    (7 ≤ 15) ∧ max 15 7 ≤ retrievalK PlanRoute.standard :=
  ⟨by decide, (retrieval_pool_size 7 (by decide)).2.2⟩
